import Mathlib

/-!
# Verification of the MongoDB node (`src/nodes/MongoDb/MongoDb.node.ts`)

A shallow embedding of the node's `execute` method and its helpers.

* JSON/BSON value trees are modelled by `BVal`; JS objects are ordered
  association lists (`Doc`), matching JS key order and last-write semantics.
* The external collaborators (the `bson` EJSON parser and the MongoDB driver
  verbs) are oracles carried in the environment `Env`; each issued driver call
  is recorded in a trace (`DbCall`).
* `GenericFunctions.ts` (`prepareFields`, `prepareItems`,
  `stringifyObjectIDs`) is part of this repository but its source is not in
  `src/`; those definitions are modelled from the spec, as marked in their
  doc comments.
-/

/-- A JSON/BSON-style value as manipulated by the node: the JS value universe
restricted to what the node touches.  `oid` is the canonical document
identifier (`ObjectId`), holding its 24-hex-character string; `undef` is the
JS `undefined` produced by reading an absent property. -/
inductive BVal where
  | str (s : String)
  | num (n : Int)
  | bool (b : Bool)
  | null
  | undef
  | oid (hex : String)
  | arr (xs : List BVal)
  | obj (kvs : List (String × BVal))
deriving Repr, BEq

/-- A JS object / BSON document: an ordered association list, as JS objects
preserve insertion order. -/
abbrev Doc := List (String × BVal)

/-- Lookup of a key in a document (first match, as in JS objects where keys
are unique; our operations keep keys unique). -/
def docGet? (d : Doc) (k : String) : Option BVal :=
  match d with
  | [] => none
  | (k', v) :: rest => if k' = k then some v else docGet? rest k

/-- JS property read `d[k]`: `undefined` when the key is absent. -/
def jsGet (d : Doc) (k : String) : BVal :=
  (docGet? d k).getD BVal.undef

/-- Whether the document has the key. -/
def hasKey (d : Doc) (k : String) : Bool :=
  (docGet? d k).isSome

/-- JS property write `d[k] = v`: overwrite in place when the key exists
(keeping its position), append otherwise — exactly JS object-assignment and
spread semantics. -/
def docSet (d : Doc) (k : String) (v : BVal) : Doc :=
  match d with
  | [] => [(k, v)]
  | (k', v') :: rest =>
      if k' = k then (k', v) :: rest else (k', v') :: docSet rest k v

/-- JS `delete d[k]`.  A JS object's keys are unique, so removing every
matching entry coincides with JS deletion on every document that represents
a JS object. -/
def docDelete (d : Doc) (k : String) : Doc :=
  d.filter (fun kv => kv.1 ≠ k)

/-- Hexadecimal digit, either case, as accepted by the driver's
`ObjectId` constructor. -/
def isHexChar (c : Char) : Bool :=
  c.isDigit || ('a' ≤ c && c ≤ 'f') || ('A' ≤ c && c ≤ 'F')

/-- A valid 24-hex-character identifier string. -/
def isValidOidString (s : String) : Bool :=
  s.length == 24 && s.toList.all isHexChar

/-- Modelled from the spec: the driver's `new ObjectId(v)` coercion (the
canonical document-identifier constructor, glossary and section 4.1).  A valid
24-hex string or an existing identifier yields the canonical identifier type;
anything else the node may feed it is an error (IdentifierCoercionError,
section 7). -/
def coerceObjectId (v : BVal) : Except String BVal :=
  match v with
  | .str s =>
      if isValidOidString s then .ok (.oid s)
      else .error "input must be a 24 character hex string"
  | .oid s => .ok (.oid s)
  | _ => .error "invalid ObjectId input"

mutual

/-- Modelled from the spec: `stringifyObjectIDs` (section 4.5), the
identifier stringifier applied to the response payload: every canonical
identifier value is rewritten to its string form, recursively, including
inside nested mappings and sequences. -/
def stringifyValue : BVal → BVal
  | .str s => .str s
  | .num n => .num n
  | .bool b => .bool b
  | .null => .null
  | .undef => .undef
  | .oid s => .str s
  | .arr xs => .arr (stringifyList xs)
  | .obj kvs => .obj (stringifyPairs kvs)

/-- `stringifyValue` mapped over a sequence. -/
def stringifyList : List BVal → List BVal
  | [] => []
  | x :: xs => stringifyValue x :: stringifyList xs

/-- `stringifyValue` mapped over a mapping's entries. -/
def stringifyPairs : List (String × BVal) → List (String × BVal)
  | [] => []
  | (k, v) :: kvs => (k, stringifyValue v) :: stringifyPairs kvs

end

/-- The response payload stringifier over a list of records
(`stringifyObjectIDs(responseData)`). -/
def stringifyDocs (ds : List Doc) : List Doc :=
  ds.map stringifyPairs

/-- Whitespace trimming of a character list (`.trim()`-equivalent,
section 4.2). -/
def trimChars (l : List Char) : List Char :=
  ((l.dropWhile Char.isWhitespace).reverse.dropWhile Char.isWhitespace).reverse

/-- Modelled from the spec: `prepareFields` (section 4.2, Field Projector):
split the comma-delimited string, trim each entry, drop empty entries. -/
def prepareFields (s : String) : List String :=
  ((s.toList.splitOn ',').map (fun cs => String.mk (trimChars cs))).filter (fun f => f ≠ "")

/-- Nested-path assignment (the path-assignment utility of section 3: dotted
keys compile to nested mappings, creating intermediate mappings as needed). -/
def setPath (d : Doc) (path : List String) (v : BVal) : Doc :=
  match path with
  | [] => d
  | [k] => docSet d k v
  | k :: rest =>
      let child : Doc :=
        match docGet? d k with
        | some (.obj kvs) => kvs
        | _ => []
      docSet d k (.obj (setPath child rest v))

/-- Modelled from the spec: the copy step of the Item Normalizer
(section 4.3, steps 2–3): candidate keys are the selector when non-empty,
else all keys of the record; each candidate key present in the record is
copied, through nested-path assignment when dot notation is on and the key
contains a dot. -/
def copyFields (fields : List String) (useDot : Bool) (item : Doc) : Doc :=
  let keys := if fields.isEmpty then item.map Prod.fst else fields
  keys.foldl
    (fun acc k =>
      match docGet? item k with
      | none => acc
      | some v =>
          if useDot && k.contains '.' then setPath acc (k.splitOn ".") v
          else docSet acc k v)
    []

/-- Modelled from the spec: the date-coercion step of the Item Normalizer
(section 4.3, step 4): best effort, a value that fails to parse as a date is
left unchanged.  `pd` is the host date parser, an oracle. -/
def coerceDates (pd : BVal → Option BVal) (dateFields : List String) (d : Doc) : Doc :=
  dateFields.foldl
    (fun acc f =>
      match docGet? acc f with
      | none => acc
      | some v =>
          match pd v with
          | some dv => docSet acc f dv
          | none => acc)
    d

/-- Modelled from the spec: the identifier-coercion step of the Item
Normalizer (section 4.3, step 5): strict, an invalid value aborts the
normalization pass with an error. -/
def coerceOids (oidFields : List String) (d : Doc) : Except String Doc :=
  oidFields.foldlM
    (fun acc f =>
      match docGet? acc f with
      | none => pure acc
      | some v => (coerceObjectId v).map (docSet acc f))
    d

/-- Modelled from the spec: the per-record algorithm of the Item Normalizer
(section 4.3, steps 1–5). -/
def normalizeRecord (pd : BVal → Option BVal) (fields : List String) (useDot : Bool)
    (dateFields oidFields : List String) (item : Doc) : Except String Doc :=
  coerceOids oidFields (coerceDates pd dateFields (copyFields fields useDot item))

/-- Modelled from the spec: `prepareItems` (section 4.3, Item Normalizer):
output has the same cardinality and order as the input.  The update-key is
listed as an input in section 4.3 but unused by the algorithm steps. -/
def prepareItems (pd : BVal → Option BVal) (fields : List String) (updateKey : String)
    (useDot : Bool) (dateFields oidFields : List String) :
    List Doc → Except String (List Doc)
  | [] => .ok []
  | item :: rest =>
      match normalizeRecord pd fields useDot dateFields oidFields item with
      | .error e => .error e
      | .ok d =>
          match prepareItems pd fields updateKey useDot dateFields oidFields rest with
          | .error e => .error e
          | .ok ds => .ok (d :: ds)

/-- The `_id` heuristic of the aggregate and find branches (source lines
128–130 and 172–174): when the parsed top-level mapping has a truthy `_id`
of string type, replace it by `new ObjectId(...)`. -/
def coerceQueryId (q : BVal) : Except String BVal :=
  match q with
  | .obj kvs =>
      match docGet? kvs "_id" with
      | some (.str s) =>
          if s ≠ "" then
            match coerceObjectId (.str s) with
            | .error e => .error e
            | .ok v => .ok (.obj (docSet kvs "_id" v))
          else .ok (.obj kvs)
      | _ => .ok (.obj kvs)
  | _ => .ok q

/-- JS truthiness of the values the node handles. -/
def truthy : BVal → Bool
  | .str s => s ≠ ""
  | .num n => n ≠ 0
  | .bool b => b
  | .null => false
  | .undef => false
  | _ => true

/-- `Object.keys(v).length` in JS for the values the node handles. -/
def jsKeysCount : BVal → Nat
  | .obj kvs => kvs.length
  | .arr xs => xs.length
  | .str s => s.length
  | _ => 0

/-- `v.constructor === Object` in JS: a plain mapping. -/
def isPlainObject : BVal → Bool
  | .obj _ => true
  | _ => false

/-- The sort guard of the find branch (source line 190):
`sort && Object.keys(sort).length !== 0 && sort.constructor === Object`. -/
def sortCond (v : BVal) : Bool :=
  truthy v && jsKeysCount v != 0 && isPlainObject v

/-- The cursor configuration the find branch has accumulated when
`toArray()` finally runs the query. -/
structure FindSpec where
  query : BVal
  skip : Option Int
  limit : Option Int
  sort : Option BVal
deriving Repr, BEq

/-- The option application of the find branch (source lines 180–192): skip
when `skip > 0`, limit when `limit > 0`, sort when the sort guard holds on
the parsed sort value (`sv = none` models a falsy `options.sort` string,
short-circuiting the parse). -/
def buildFindSpec (q : BVal) (skip limit : Int) (sv : Option BVal) : FindSpec :=
  { query := q
    skip := if skip > 0 then some skip else none
    limit := if limit > 0 then some limit else none
    sort :=
      match sv with
      | some v => if sortCond v then some v else none
      | none => none }

/-- `options.sort && EJSON.parse(options.sort as string)` (source line 183):
an empty sort string short-circuits; otherwise the string is parsed (and a
parse failure propagates to the branch's catch). -/
def sortValue (parse : String → Except String BVal) (sortStr : String) :
    Except String (Option BVal) :=
  if sortStr = "" then .ok none
  else
    match parse sortStr with
    | .error e => .error e
    | .ok v => .ok (some v)

/-- A driver verb call issued during an invocation; the order of issue is
recorded by the trace lists below. -/
inductive DbCall where
  | aggregate (pipeline : BVal)
  | deleteMany (filter : BVal)
  | find (spec : FindSpec)
  | insertMany (docs : List Doc)
  | updateOne (filter body : Doc) (upsert : Bool)
  | findOneAndUpdate (filter body : Doc) (upsert : Bool)
  | findOneAndReplace (filter body : Doc) (upsert : Bool)
deriving Repr, BEq

/-- The inputs `execute` reads from the host, together with oracles for the
external collaborators: `parse` is `EJSON.parse`, `parseDate` the host date
parser used by the normalizer, and the `db...` fields are the driver verbs
(each returning a result or a thrown error message). -/
structure Env where
  operation : String
  continueOnFail : Bool
  queryStr : String
  optSkip : Int
  optLimit : Int
  optSort : String
  fieldsStr : String
  dateFieldsStr : String
  oidFieldsStr : String
  useDotNotation : Bool
  updateKey : String
  upsert : Bool
  items : List Doc
  parse : String → Except String BVal
  parseDate : BVal → Option BVal
  dbAggregate : BVal → Except String (List Doc)
  dbDeleteMany : BVal → Except String Int
  dbFind : FindSpec → Except String (List Doc)
  dbInsertMany : List Doc → Except String (List BVal)
  dbUpdateOne : Doc → Doc → Except String Unit
  dbFindOneAndUpdate : Doc → Doc → Except String Unit
  dbFindOneAndReplace : Doc → Doc → Except String Unit

/-- The trace of a branch together with its result: the thrown error, or the
`responseData` it leaves for the tail of `execute`. -/
abbrev BranchOut := List DbCall × Except String (List Doc)

/-- The catch handler of the whole-batch branches (source lines 137–143,
155–161, 196–202, 327–333): on continue-on-failure the whole response
becomes the single error record, otherwise the error is rethrown. -/
def handleBatchError (cof : Bool) (e : String) : Except String (List Doc) :=
  if cof then .ok [[("error", BVal.str e)]] else .error e

/-- The try block of the aggregate branch (source lines 123–136): parse the
query string, apply the `_id` heuristic, run the pipeline. -/
def aggregateRaw (env : Env) : BranchOut :=
  match env.parse env.queryStr with
  | .error e => ([], .error e)
  | .ok q0 =>
      match coerceQueryId q0 with
      | .error e => ([], .error e)
      | .ok q =>
          match env.dbAggregate q with
          | .error e => ([.aggregate q], .error e)
          | .ok docs => ([.aggregate q], .ok docs)

/-- The aggregate branch (source lines 118–143). -/
def aggregateBranch (env : Env) : BranchOut :=
  match aggregateRaw env with
  | (cs, .error e) => (cs, handleBatchError env.continueOnFail e)
  | (cs, .ok docs) => (cs, .ok docs)

/-- The try block of the delete branch (source lines 149–154): the parsed
query string is passed to `deleteMany` as is — no `_id` heuristic here. -/
def deleteRaw (env : Env) : BranchOut :=
  match env.parse env.queryStr with
  | .error e => ([], .error e)
  | .ok q =>
      match env.dbDeleteMany q with
      | .error e => ([.deleteMany q], .error e)
      | .ok n => ([.deleteMany q], .ok [[("deletedCount", BVal.num n)]])

/-- The delete branch (source lines 144–161). -/
def deleteBranch (env : Env) : BranchOut :=
  match deleteRaw env with
  | (cs, .error e) => (cs, handleBatchError env.continueOnFail e)
  | (cs, .ok docs) => (cs, .ok docs)

/-- The try block of the find branch (source lines 167–195): parse, `_id`
heuristic, accumulate skip/limit/sort onto the cursor, run at `toArray`. -/
def findRaw (env : Env) : BranchOut :=
  match env.parse env.queryStr with
  | .error e => ([], .error e)
  | .ok q0 =>
      match coerceQueryId q0 with
      | .error e => ([], .error e)
      | .ok q =>
          match sortValue env.parse env.optSort with
          | .error e => ([], .error e)
          | .ok sv =>
              let spec := buildFindSpec q env.optSkip env.optLimit sv
              match env.dbFind spec with
              | .error e => ([.find spec], .error e)
              | .ok docs => ([.find spec], .ok docs)

/-- The find branch (source lines 162–202). -/
def findBranch (env : Env) : BranchOut :=
  match findRaw env with
  | (cs, .error e) => (cs, handleBatchError env.continueOnFail e)
  | (cs, .ok docs) => (cs, .ok docs)

/-- `responseData.push({ ...insertItems[i], id: insertedIds[i] })` for each
index of `insertedIds` (source lines 321–326): each generated identifier is
merged onto its normalized item by positional index. -/
def mergeInsertedIds (docs : List Doc) (ids : List BVal) : List Doc :=
  List.zipWith (fun d i => docSet d "id" i) docs ids

/-- The try block of the insert branch (source lines 303–326): the
normalizer runs with the empty update key (source line 314), all normalized
documents go to one `insertMany` call, the generated identifiers are merged
back by index. -/
def insertRaw (env : Env) : BranchOut :=
  match prepareItems env.parseDate (prepareFields env.fieldsStr) "" env.useDotNotation
      (prepareFields env.dateFieldsStr) (prepareFields env.oidFieldsStr) env.items with
  | .error e => ([], .error e)
  | .ok insertItems =>
      match env.dbInsertMany insertItems with
      | .error e => ([.insertMany insertItems], .error e)
      | .ok ids => ([.insertMany insertItems], .ok (mergeInsertedIds insertItems ids))

/-- The insert branch (source lines 299–333). -/
def insertBranch (env : Env) : BranchOut :=
  match insertRaw env with
  | (cs, .error e) => (cs, handleBatchError env.continueOnFail e)
  | (cs, .ok docs) => (cs, .ok docs)

/-- Which of the three per-item verbs a loop drives (the three branches
share their loop body verbatim, source lines 230–248, 278–296, 361–379). -/
inductive PerItemVerb where
  | updateOne
  | findOneAndUpdate
  | findOneAndReplace
deriving Repr, BEq

/-- The body each verb sends: `{ $set: item }` for the update verbs (source
lines 288, 371), the item itself for replace (source line 240). -/
def PerItemVerb.wrap : PerItemVerb → Doc → Doc
  | .updateOne, d => [("$set", BVal.obj d)]
  | .findOneAndUpdate, d => [("$set", BVal.obj d)]
  | .findOneAndReplace, d => d

/-- The trace entry a verb's call produces. -/
def PerItemVerb.call : PerItemVerb → Doc → Doc → Bool → DbCall
  | .updateOne, f, b, u => .updateOne f b u
  | .findOneAndUpdate, f, b, u => .findOneAndUpdate f b u
  | .findOneAndReplace, f, b, u => .findOneAndReplace f b u

/-- The driver oracle a verb uses. -/
def Env.dbVerb (env : Env) : PerItemVerb → Doc → Doc → Except String Unit
  | .updateOne => env.dbUpdateOne
  | .findOneAndUpdate => env.dbFindOneAndUpdate
  | .findOneAndReplace => env.dbFindOneAndReplace

/-- Filter and body construction of the per-item loops (source lines
232–236, 280–284, 363–367): `filter = { [updateKey]: item[updateKey] }`;
when the update key is `_id`, the filter value is coerced with
`new ObjectId(...)` (which can throw, before any mutation) and then
`delete item._id` removes the key from the document. -/
def buildFilterBody (updateKey : String) (item : Doc) : Except String (Doc × Doc) :=
  if updateKey = "_id" then
    match coerceObjectId (jsGet item updateKey) with
    | .error e => .error e
    | .ok v => .ok ([(updateKey, v)], docDelete item "_id")
  else .ok ([(updateKey, jsGet item updateKey)], item)

/-- One iteration of a per-item loop: returns the calls it issued, the item
as the loop leaves it (the `delete item._id` mutation included), and the
verb outcome. -/
def perItemStep (env : Env) (verb : PerItemVerb) (updateKey : String) (item : Doc) :
    List DbCall × Doc × Except String Unit :=
  match buildFilterBody updateKey item with
  | .error e => ([], item, .error e)
  | .ok (filter, d) =>
      let body := verb.wrap d
      let c := verb.call filter body env.upsert
      match env.dbVerb verb filter body with
      | .error e => ([c], d, .error e)
      | .ok _ => ([c], d, .ok ())

/-- `item.json = { error: error.message }` (source lines 243, 291, 374):
the error annotation a handled per-item failure leaves on its item. -/
def annotateError (d : Doc) (e : String) : Doc :=
  docSet d "json" (.obj [("error", .str e)])

/-- The per-item loop shared by update, findOneAndUpdate and
findOneAndReplace (source lines 230–248, 278–296, 361–379): on a handled
error the item gets `item.json = { error: message }` and the loop continues;
without continue-on-failure the error is rethrown, dropping the partial
results (`responseData` is only assigned after the loop). -/
def perItemLoop (env : Env) (verb : PerItemVerb) (updateKey : String) :
    List Doc → BranchOut
  | [] => ([], .ok [])
  | item :: rest =>
      match perItemStep env verb updateKey item with
      | (cs, item', .ok _) =>
          match perItemLoop env verb updateKey rest with
          | (cs2, .error e) => (cs ++ cs2, .error e)
          | (cs2, .ok out) => (cs ++ cs2, .ok (item' :: out))
      | (cs, item', .error e) =>
          if env.continueOnFail then
            match perItemLoop env verb updateKey rest with
            | (cs2, .error e2) => (cs ++ cs2, .error e2)
            | (cs2, .ok out) => (cs ++ cs2, .ok (annotateError item' e :: out))
          else (cs, .error e)

/-- A per-item branch (source lines 203–250, 251–298, 334–381): fields,
options and the trimmed update key are read, the normalizer runs outside
any try (so its error propagates even under continue-on-failure), then the
loop runs and `responseData = updateItems`. -/
def perItemBranch (env : Env) (verb : PerItemVerb) : BranchOut :=
  match prepareItems env.parseDate (prepareFields env.fieldsStr) env.updateKey.trim
      env.useDotNotation (prepareFields env.dateFieldsStr) (prepareFields env.oidFieldsStr)
      env.items with
  | .error e => ([], .error e)
  | .ok updateItems => perItemLoop env verb env.updateKey.trim updateItems

/-- The unsupported-operation message (source lines 384, 388). -/
def unsupportedMsg (op : String) : String :=
  "The operation \"" ++ op ++ "\" is not supported!"

/-- The operation dispatch of `execute` (source lines 118–392), in source
branch order, ending in the unsupported-operation else branch (source lines
382–392). -/
def runBranch (env : Env) : BranchOut :=
  if env.operation = "aggregate" then aggregateBranch env
  else if env.operation = "delete" then deleteBranch env
  else if env.operation = "find" then findBranch env
  else if env.operation = "findOneAndReplace" then perItemBranch env .findOneAndReplace
  else if env.operation = "findOneAndUpdate" then perItemBranch env .findOneAndUpdate
  else if env.operation = "insert" then insertBranch env
  else if env.operation = "update" then perItemBranch env .updateOne
  else if env.continueOnFail then
    ([], .ok [[("error", BVal.str (unsupportedMsg env.operation))]])
  else ([], .error (unsupportedMsg env.operation))

/-- The observable outcome of one `execute` invocation: the issued driver
calls, how many times `client.close()` ran, and the returned response or the
propagated error. -/
structure ExecOut where
  calls : List DbCall
  closeCount : Nat
  outcome : Except String (List Doc)
deriving Repr

/-- `execute` (source lines 105–406): dispatch, then `await client.close()`
(source line 394) followed by `stringifyObjectIDs(responseData)` (source
line 396).  The close sits after the dispatch on the straight-line path
only, so a thrown error leaves the invocation before it runs. -/
def executeModel (env : Env) : ExecOut :=
  match runBranch env with
  | (cs, .error e) => { calls := cs, closeCount := 0, outcome := .error e }
  | (cs, .ok resp) => { calls := cs, closeCount := 1, outcome := .ok (stringifyDocs resp) }

/-- The calls one loop iteration issues (none when the identifier coercion
throws, otherwise exactly the verb call). -/
def stepCalls (env : Env) (verb : PerItemVerb) (updateKey : String) (item : Doc) : List DbCall :=
  (perItemStep env verb updateKey item).1

/-- The document one loop iteration leaves in `updateItems`. -/
def stepDoc (env : Env) (verb : PerItemVerb) (updateKey : String) (item : Doc) : Doc :=
  (perItemStep env verb updateKey item).2.1

/-- The outcome of one loop iteration's work. -/
def stepRes (env : Env) (verb : PerItemVerb) (updateKey : String) (item : Doc) :
    Except String Unit :=
  (perItemStep env verb updateKey item).2.2

/-- The concatenated traces of the iterations over a list of items. -/
def loopCalls (env : Env) (verb : PerItemVerb) (updateKey : String) : List Doc → List DbCall
  | [] => []
  | item :: rest => stepCalls env verb updateKey item ++ loopCalls env verb updateKey rest

/-- A valid 24-hex identifier string used for concrete evaluations. -/
def oidA : String := "507f1f77bcf86cd799439011"

/-- A second valid 24-hex identifier string. -/
def oidB : String := "507f1f77bcf86cd799439012"

/-- A base environment with trivial oracles, used to build the concrete
environments of the closed evaluations below. -/
def baseEnv : Env :=
  { operation := "find"
    continueOnFail := false
    queryStr := "\x7b\x7d"
    optSkip := 0
    optLimit := 0
    optSort := ""
    fieldsStr := ""
    dateFieldsStr := ""
    oidFieldsStr := ""
    useDotNotation := false
    updateKey := ""
    upsert := false
    items := []
    parse := fun _ => .ok (.obj [])
    parseDate := fun _ => none
    dbAggregate := fun _ => .ok []
    dbDeleteMany := fun _ => .ok 0
    dbFind := fun _ => .ok []
    dbInsertMany := fun ds => .ok (ds.map (fun _ => BVal.oid oidA))
    dbUpdateOne := fun _ _ => .ok ()
    dbFindOneAndUpdate := fun _ _ => .ok ()
    dbFindOneAndReplace := fun _ _ => .ok () }

/-- An environment whose EJSON parser and bulk insert fail, for concrete
evaluations of the whole-batch error policy. -/
def envParseFail : Env :=
  { baseEnv with
      continueOnFail := true
      parse := fun _ => .error "boom"
      dbInsertMany := fun _ => .error "boom" }

/-- An environment whose query parses to `{_id: "<24-hex string>"}`. -/
def envIdQuery : Env :=
  { baseEnv with parse := fun _ => .ok (.obj [("_id", BVal.str oidA)]) }

/-- An insert environment with two input items. -/
def envInsert : Env :=
  { baseEnv with
      operation := "insert"
      items := [[("name", BVal.str "a")], [("name", BVal.str "b")]] }

/-- An update environment whose `updateOne` rejects exactly the filter
`{name: "y"}`, for concrete evaluations of per-item error isolation. -/
def envC8 : Env :=
  { baseEnv with
      continueOnFail := true
      dbUpdateOne := fun f _ =>
        match docGet? f "name" with
        | some (.str s) => if s = "y" then .error "duplicate key" else .ok ()
        | _ => .ok () }

/-- An item carrying a valid hex `_id` and one payload field. -/
def itemWithId : Doc := [("_id", BVal.str oidA), ("name", BVal.str "a")]

mutual

theorem stringifyValue_idem : ∀ v, stringifyValue (stringifyValue v) = stringifyValue v
  | .str _ => rfl
  | .num _ => rfl
  | .bool _ => rfl
  | .null => rfl
  | .undef => rfl
  | .oid _ => rfl
  | .arr xs => by simp [stringifyValue, stringifyList_idem xs]
  | .obj kvs => by simp [stringifyValue, stringifyPairs_idem kvs]

theorem stringifyList_idem : ∀ xs, stringifyList (stringifyList xs) = stringifyList xs
  | [] => rfl
  | x :: xs => by simp [stringifyList, stringifyValue_idem x, stringifyList_idem xs]

theorem stringifyPairs_idem : ∀ kvs, stringifyPairs (stringifyPairs kvs) = stringifyPairs kvs
  | [] => rfl
  | (k, v) :: kvs => by simp [stringifyPairs, stringifyValue_idem v, stringifyPairs_idem kvs]

end

theorem docGet?_docDelete (d : Doc) (k : String) : docGet? (docDelete d k) k = none := by
  induction d with
  | nil => rfl
  | cons kv rest ih =>
      by_cases h : kv.1 = k
      · simpa [docDelete, List.filter_cons, h] using ih
      · simpa [docDelete, List.filter_cons, docGet?, h] using ih

theorem hasKey_docDelete (d : Doc) (k : String) : hasKey (docDelete d k) k = false := by
  simp [hasKey, docGet?_docDelete]

theorem coerceObjectId_oid {x v : BVal} (h : coerceObjectId x = .ok v) : ∃ s, v = .oid s := by
  cases x with
  | str s =>
      by_cases hv : isValidOidString s = true
      · simp [coerceObjectId, hv] at h
        exact ⟨s, h.symm⟩
      · simp [coerceObjectId, hv] at h
  | oid s =>
      simp [coerceObjectId] at h
      exact ⟨s, h.symm⟩
  | num n => simp [coerceObjectId] at h
  | bool b => simp [coerceObjectId] at h
  | null => simp [coerceObjectId] at h
  | undef => simp [coerceObjectId] at h
  | arr xs => simp [coerceObjectId] at h
  | obj kvs => simp [coerceObjectId] at h

theorem isValidOidString_ne_empty {s : String} (h : isValidOidString s = true) : s ≠ "" := by
  intro he
  subst he
  exact absurd h (by decide)

theorem sortCond_iff (v : BVal) : sortCond v = true ↔ ∃ kvs, v = .obj kvs ∧ kvs ≠ [] := by
  cases v <;> simp [sortCond, truthy, jsKeysCount, isPlainObject]

theorem prepareItems_length (pd : BVal → Option BVal) (fields : List String)
    (updateKey : String) (useDot : Bool) (dateFields oidFields : List String) :
    ∀ (items docs : List Doc),
      prepareItems pd fields updateKey useDot dateFields oidFields items = .ok docs →
      docs.length = items.length := by
  intro items
  induction items with
  | nil =>
      intro docs h
      simp [prepareItems] at h
      simp [← h]
  | cons item rest ih =>
      intro docs h
      simp only [prepareItems] at h
      cases hn : normalizeRecord pd fields useDot dateFields oidFields item with
      | error e => rw [hn] at h; simp at h
      | ok d =>
          rw [hn] at h
          cases hr : prepareItems pd fields updateKey useDot dateFields oidFields rest with
          | error e => rw [hr] at h; simp at h
          | ok ds =>
              rw [hr] at h
              simp at h
              simp [← h, ih ds hr]

theorem mergeInsertedIds_get (docs : List Doc) (ids : List BVal) :
    ∀ i : Nat, i < docs.length → i < ids.length →
      (mergeInsertedIds docs ids)[i]? =
        some (docSet (docs.getD i []) "id" (ids.getD i BVal.null)) := by
  induction docs generalizing ids with
  | nil => intro i h1 _; simp at h1
  | cons d ds ih =>
      cases ids with
      | nil => intro i _ h2; simp at h2
      | cons x xs =>
          intro i h1 h2
          cases i with
          | zero => simp [mergeInsertedIds]
          | succ n =>
              simpa [mergeInsertedIds] using
                ih xs n (by simpa using h1) (by simpa using h2)

theorem perItemLoop_all_ok (env : Env) (verb : PerItemVerb) (updateKey : String) :
    ∀ items : List Doc,
      (∀ item ∈ items, stepRes env verb updateKey item = .ok ()) →
      perItemLoop env verb updateKey items =
        (loopCalls env verb updateKey items, .ok (items.map (stepDoc env verb updateKey))) := by
  intro items
  induction items with
  | nil => intro _; rfl
  | cons item rest ih =>
      intro h
      have hstep : stepRes env verb updateKey item = .ok () := h item (by simp)
      have hrest := ih (fun it hit => h it (by simp [hit]))
      rcases hps : perItemStep env verb updateKey item with ⟨cs, item', r⟩
      have hr : r = .ok () := by simpa [stepRes, hps] using hstep
      subst hr
      simp [perItemLoop, hps, hrest, loopCalls, stepCalls, stepDoc]

/-- C9: coercing a valid 24-hex identifier string and stringifying it again
yields the original string, and the response-payload stringifier is
idempotent, both on a single value and on a whole response payload. -/
theorem c9_identifier_roundtrip_and_idempotence :
    (∀ s, isValidOidString s = true →
      (coerceObjectId (BVal.str s)).map stringifyValue = .ok (.str s)) ∧
    (∀ v, stringifyValue (stringifyValue v) = stringifyValue v) ∧
    (∀ ds, stringifyDocs (stringifyDocs ds) = stringifyDocs ds) := by
  refine ⟨?_, stringifyValue_idem, ?_⟩
  · intro s h
    simp [coerceObjectId, h, Except.map, stringifyValue]
  · intro ds
    simp only [stringifyDocs, List.map_map]
    exact List.map_congr_left (fun d _ => stringifyPairs_idem d)

/-- C9 witness: the round trip and the idempotence at concrete inputs. -/
theorem c9_identifier_roundtrip_and_idempotence_witness :
    (coerceObjectId (BVal.str oidA)).map stringifyValue = .ok (.str oidA) ∧
    stringifyValue (stringifyValue (BVal.obj [("x", BVal.oid oidA)])) =
      stringifyValue (BVal.obj [("x", BVal.oid oidA)]) :=
  ⟨c9_identifier_roundtrip_and_idempotence.1 oidA (by decide),
   c9_identifier_roundtrip_and_idempotence.2.1 (BVal.obj [("x", BVal.oid oidA)])⟩

/-- C10: for the per-item operations, a non-empty update key different from
`_id` is not removed from the normalized document: the filter is the
single-key mapping holding the item's value at that key, the body is built
from the unmodified item, and the issued call carries both. -/
theorem c10_updatekey_in_filter_and_body (env : Env) (verb : PerItemVerb)
    (updateKey : String) (item : Doc) (v : BVal)
    (hk0 : updateKey ≠ "") (hk : updateKey ≠ "_id")
    (hv : docGet? item updateKey = some v) :
    buildFilterBody updateKey item = .ok ([(updateKey, v)], item) ∧
    stepCalls env verb updateKey item =
      [verb.call [(updateKey, v)] (verb.wrap item) env.upsert] := by
  have h1 : buildFilterBody updateKey item = .ok ([(updateKey, v)], item) := by
    simp [buildFilterBody, hk, jsGet, hv]
  refine ⟨h1, ?_⟩
  simp only [stepCalls, perItemStep, h1]
  cases env.dbVerb verb [(updateKey, v)] (verb.wrap item) <;> simp

/-- C10 witness: concrete item and update key `name`. -/
theorem c10_updatekey_in_filter_and_body_witness :
    buildFilterBody "name" [("name", BVal.str "a"), ("age", BVal.num 3)] =
      .ok ([("name", BVal.str "a")], [("name", BVal.str "a"), ("age", BVal.num 3)]) ∧
    stepCalls baseEnv .updateOne "name" [("name", BVal.str "a"), ("age", BVal.num 3)] =
      [PerItemVerb.call .updateOne [("name", BVal.str "a")]
        (PerItemVerb.wrap .updateOne [("name", BVal.str "a"), ("age", BVal.num 3)])
        baseEnv.upsert] :=
  c10_updatekey_in_filter_and_body baseEnv .updateOne "name"
    [("name", BVal.str "a"), ("age", BVal.num 3)] (BVal.str "a")
    (by decide) (by decide) rfl


/-- C4: in the find branch's option application, skip is applied iff
`skip > 0`, limit iff `limit > 0`, and sort iff the sort string is non-empty
and parses to a plain mapping with at least one key. -/
theorem c4_find_option_application (q : BVal) (skip limit : Int) (sortStr : String)
    (parse : String → Except String BVal) (sv : Option BVal)
    (hsv : sortValue parse sortStr = .ok sv) :
    ((buildFindSpec q skip limit sv).skip.isSome ↔ skip > 0) ∧
    ((buildFindSpec q skip limit sv).limit.isSome ↔ limit > 0) ∧
    ((buildFindSpec q skip limit sv).sort.isSome ↔
      sortStr ≠ "" ∧ ∃ kvs, parse sortStr = .ok (.obj kvs) ∧ kvs ≠ []) := by
  refine ⟨?_, ?_, ?_⟩
  · by_cases h : skip > 0 <;> simp [buildFindSpec, h]
  · by_cases h : limit > 0 <;> simp [buildFindSpec, h]
  · by_cases hs : sortStr = ""
    · subst hs
      have hn : sv = none := by
        simpa [sortValue] using hsv.symm
      subst hn
      simp [buildFindSpec]
    · simp only [sortValue, if_neg hs] at hsv
      cases hp : parse sortStr with
      | error e => rw [hp] at hsv; simp at hsv
      | ok v =>
          rw [hp] at hsv
          simp only [Except.ok.injEq] at hsv
          subst hsv
          by_cases hc : sortCond v = true
          · obtain ⟨kvs, hv, hne⟩ := (sortCond_iff v).mp hc
            simp only [buildFindSpec, hc, if_true, Option.isSome_some, true_iff]
            exact ⟨hs, kvs, by rw [hv], hne⟩
          · simp only [buildFindSpec, if_neg hc, Option.isSome_none]
            constructor
            · intro h
              exact absurd h (by simp)
            · rintro ⟨-, kvs, hpk, hne⟩
              have hv : v = .obj kvs := by
                simpa using hpk
              exact absurd ((sortCond_iff v).mpr ⟨kvs, hv, hne⟩) hc

/-- C4 witness: skip 5 applied, limit 0 not applied, a one-key sort mapping
applied. -/
theorem c4_find_option_application_witness :
    ((buildFindSpec (.obj []) 5 0 (some (.obj [("a", BVal.num 1)]))).skip.isSome ↔ (5 : Int) > 0) ∧
    ((buildFindSpec (.obj []) 5 0 (some (.obj [("a", BVal.num 1)]))).limit.isSome ↔ (0 : Int) > 0) ∧
    ((buildFindSpec (.obj []) 5 0 (some (.obj [("a", BVal.num 1)]))).sort.isSome ↔
      "\x7b\"a\":1\x7d" ≠ "" ∧ ∃ kvs,
        (fun _ => Except.ok (BVal.obj [("a", BVal.num 1)]) :
          String → Except String BVal) "\x7b\"a\":1\x7d" = .ok (.obj kvs) ∧ kvs ≠ []) :=
  c4_find_option_application (.obj []) 5 0 "\x7b\"a\":1\x7d"
    (fun _ => Except.ok (BVal.obj [("a", BVal.num 1)])) (some (.obj [("a", BVal.num 1)])) rfl

/-- C6: an operation name matching none of the seven verbs issues no driver
call; without continue-on-failure the invocation fails with the
unsupported-operation error, with it the response is the single error record
naming the operation. -/
theorem c6_unsupported_operation (env : Env)
    (hop : env.operation ∉ ["aggregate", "delete", "find", "findOneAndReplace",
      "findOneAndUpdate", "insert", "update"]) :
    (executeModel env).calls = [] ∧
    (env.continueOnFail = true →
      (executeModel env).outcome =
        .ok [[("error", BVal.str (unsupportedMsg env.operation))]]) ∧
    (env.continueOnFail = false →
      (executeModel env).outcome = .error (unsupportedMsg env.operation)) := by
  simp only [List.mem_cons, List.not_mem_nil, or_false, not_or] at hop
  obtain ⟨h1, h2, h3, h4, h5, h6, h7⟩ := hop
  unfold executeModel runBranch
  rw [if_neg h1, if_neg h2, if_neg h3, if_neg h4, if_neg h5, if_neg h6, if_neg h7]
  cases hc : env.continueOnFail with
  | true => simp [stringifyDocs, stringifyPairs, stringifyValue]
  | false => simp

/-- C6 witness: operation `foo` without continue-on-failure. -/
theorem c6_unsupported_operation_witness :
    (executeModel { baseEnv with operation := "foo" }).calls = [] ∧
    (({ baseEnv with operation := "foo" } : Env).continueOnFail = true →
      (executeModel { baseEnv with operation := "foo" }).outcome =
        .ok [[("error", BVal.str (unsupportedMsg "foo"))]]) ∧
    (({ baseEnv with operation := "foo" } : Env).continueOnFail = false →
      (executeModel { baseEnv with operation := "foo" }).outcome =
        .error (unsupportedMsg "foo")) :=
  c6_unsupported_operation { baseEnv with operation := "foo" } (by decide)

/-- C7: for the whole-batch operations, an error raised in the try block
turns the entire response into the single one-element error record when
continue-on-failure is active, and propagates otherwise. -/
theorem c7_whole_batch_error_policy (env : Env) (e : String) :
    ((aggregateRaw env).2 = .error e →
      (env.continueOnFail = true → (aggregateBranch env).2 = .ok [[("error", BVal.str e)]]) ∧
      (env.continueOnFail = false → (aggregateBranch env).2 = .error e)) ∧
    ((deleteRaw env).2 = .error e →
      (env.continueOnFail = true → (deleteBranch env).2 = .ok [[("error", BVal.str e)]]) ∧
      (env.continueOnFail = false → (deleteBranch env).2 = .error e)) ∧
    ((findRaw env).2 = .error e →
      (env.continueOnFail = true → (findBranch env).2 = .ok [[("error", BVal.str e)]]) ∧
      (env.continueOnFail = false → (findBranch env).2 = .error e)) ∧
    ((insertRaw env).2 = .error e →
      (env.continueOnFail = true → (insertBranch env).2 = .ok [[("error", BVal.str e)]]) ∧
      (env.continueOnFail = false → (insertBranch env).2 = .error e)) := by
  refine ⟨?_, ?_, ?_, ?_⟩
  · intro h
    rcases hA : aggregateRaw env with ⟨cs, r⟩
    rw [hA] at h
    simp only at h
    subst h
    refine ⟨fun hc => ?_, fun hc => ?_⟩ <;>
      simp [aggregateBranch, hA, handleBatchError, hc]
  · intro h
    rcases hA : deleteRaw env with ⟨cs, r⟩
    rw [hA] at h
    simp only at h
    subst h
    refine ⟨fun hc => ?_, fun hc => ?_⟩ <;>
      simp [deleteBranch, hA, handleBatchError, hc]
  · intro h
    rcases hA : findRaw env with ⟨cs, r⟩
    rw [hA] at h
    simp only at h
    subst h
    refine ⟨fun hc => ?_, fun hc => ?_⟩ <;>
      simp [findBranch, hA, handleBatchError, hc]
  · intro h
    rcases hA : insertRaw env with ⟨cs, r⟩
    rw [hA] at h
    simp only at h
    subst h
    refine ⟨fun hc => ?_, fun hc => ?_⟩ <;>
      simp [insertBranch, hA, handleBatchError, hc]

/-- C7 witness: with a failing parser and failing bulk insert under
continue-on-failure, each whole-batch branch answers the single error
record. -/
theorem c7_whole_batch_error_policy_witness :
    (aggregateBranch envParseFail).2 = .ok [[("error", BVal.str "boom")]] ∧
    (deleteBranch envParseFail).2 = .ok [[("error", BVal.str "boom")]] ∧
    (findBranch envParseFail).2 = .ok [[("error", BVal.str "boom")]] ∧
    (insertBranch envParseFail).2 = .ok [[("error", BVal.str "boom")]] := by
  have h := c7_whole_batch_error_policy envParseFail "boom"
  exact ⟨(h.1 rfl).1 rfl, (h.2.1 rfl).1 rfl, (h.2.2.1 rfl).1 rfl, (h.2.2.2 rfl).1 rfl⟩

/-- C2 counterexample: the delete branch performs no `_id` coercion — with
the parsed filter `{_id: "<valid 24-hex string>"}` the `deleteMany` verb
receives the identifier still as a plain string. -/
theorem c2_delete_no_id_coercion :
    (executeModel { envIdQuery with operation := "delete" }).calls =
      [DbCall.deleteMany (.obj [("_id", BVal.str oidA)])] := by
  rfl

/-- C2 (amended): the `_id` string-to-identifier rewrite happens in the
aggregate and find branches: when the parsed query is a mapping whose `_id`
is a valid 24-hex string, every call those branches issue carries the query
with `_id` replaced by the canonical identifier.  (It does not happen in
delete, see the counterexample.) -/
theorem c2_id_coercion_aggregate_find (env : Env) (kvs : Doc) (s : String) (sv : Option BVal)
    (hq : env.parse env.queryStr = .ok (.obj kvs))
    (hid : docGet? kvs "_id" = some (.str s))
    (hs : isValidOidString s = true)
    (hsv : sortValue env.parse env.optSort = .ok sv) :
    (aggregateRaw env).1 = [.aggregate (.obj (docSet kvs "_id" (.oid s)))] ∧
    (findRaw env).1 =
      [.find (buildFindSpec (.obj (docSet kvs "_id" (.oid s))) env.optSkip env.optLimit sv)] := by
  have hne : s ≠ "" := isValidOidString_ne_empty hs
  have hco : coerceQueryId (.obj kvs) = .ok (.obj (docSet kvs "_id" (.oid s))) := by
    simp [coerceQueryId, hid, hne, coerceObjectId, hs]
  constructor
  · simp only [aggregateRaw, hq, hco]
    cases env.dbAggregate (.obj (docSet kvs "_id" (.oid s))) <;> simp
  · simp only [findRaw, hq, hco, hsv]
    cases env.dbFind
        (buildFindSpec (.obj (docSet kvs "_id" (.oid s))) env.optSkip env.optLimit sv) <;>
      simp

/-- C2 witness: concrete query `{_id: "<24-hex>"}` in the aggregate and find
branches. -/
theorem c2_id_coercion_aggregate_find_witness :
    (aggregateRaw envIdQuery).1 =
      [.aggregate (.obj (docSet [("_id", BVal.str oidA)] "_id" (.oid oidA)))] ∧
    (findRaw envIdQuery).1 =
      [.find (buildFindSpec (.obj (docSet [("_id", BVal.str oidA)] "_id" (.oid oidA)))
        envIdQuery.optSkip envIdQuery.optLimit none)] :=
  c2_id_coercion_aggregate_find envIdQuery [("_id", BVal.str oidA)] oidA none
    rfl rfl (by decide) rfl

/-- C5: the insert branch runs the normalizer with the empty update key,
inserts all N normalized documents in one bulk call, and answers, in input
order, each normalized document with the generated identifier of the same
position added under `id`. -/
theorem c5_insert_bulk_and_merge (env : Env) (docs : List Doc) (ids : List BVal)
    (hprep : prepareItems env.parseDate (prepareFields env.fieldsStr) "" env.useDotNotation
        (prepareFields env.dateFieldsStr) (prepareFields env.oidFieldsStr) env.items = .ok docs)
    (hins : env.dbInsertMany docs = .ok ids)
    (hlen : ids.length = docs.length) :
    docs.length = env.items.length ∧
    (insertRaw env).1 = [.insertMany docs] ∧
    (insertRaw env).2 = .ok (mergeInsertedIds docs ids) ∧
    (mergeInsertedIds docs ids).length = env.items.length ∧
    ∀ i : Nat, i < env.items.length →
      (mergeInsertedIds docs ids)[i]? =
        some (docSet (docs.getD i []) "id" (ids.getD i BVal.null)) := by
  have hlen2 : docs.length = env.items.length :=
    prepareItems_length _ _ _ _ _ _ env.items docs hprep
  have hraw : insertRaw env = ([.insertMany docs], .ok (mergeInsertedIds docs ids)) := by
    simp [insertRaw, hprep, hins]
  have hmlen : (mergeInsertedIds docs ids).length = env.items.length := by
    simp [mergeInsertedIds, hlen, hlen2]
  refine ⟨hlen2, by simp [hraw], by simp [hraw], hmlen, ?_⟩
  intro i hi
  exact mergeInsertedIds_get docs ids i (by omega) (by omega)

/-- C5 witness: two items inserted, each output record carrying `id`. -/
theorem c5_insert_bulk_and_merge_witness :
    ([[("name", BVal.str "a")], [("name", BVal.str "b")]] : List Doc).length =
      envInsert.items.length ∧
    (insertRaw envInsert).1 =
      [.insertMany [[("name", BVal.str "a")], [("name", BVal.str "b")]]] ∧
    (insertRaw envInsert).2 =
      .ok (mergeInsertedIds [[("name", BVal.str "a")], [("name", BVal.str "b")]]
        [BVal.oid oidA, BVal.oid oidA]) ∧
    (mergeInsertedIds [[("name", BVal.str "a")], [("name", BVal.str "b")]]
      [BVal.oid oidA, BVal.oid oidA]).length = envInsert.items.length ∧
    ∀ i : Nat, i < envInsert.items.length →
      (mergeInsertedIds [[("name", BVal.str "a")], [("name", BVal.str "b")]]
        [BVal.oid oidA, BVal.oid oidA])[i]? =
        some (docSet (([[("name", BVal.str "a")], [("name", BVal.str "b")]] : List Doc).getD i [])
          "id" (([BVal.oid oidA, BVal.oid oidA] : List BVal).getD i BVal.null)) :=
  c5_insert_bulk_and_merge envInsert [[("name", BVal.str "a")], [("name", BVal.str "b")]]
    [BVal.oid oidA, BVal.oid oidA] (by rfl) rfl rfl

/-- C1: the session-close accounting of `execute`: the model closes the
client exactly once on the success path and on handled-error paths, but
zero times when a failure propagates (here a find-branch database error
without continue-on-failure, and the unsupported-operation throw): the
acquired session is not released on every exit path. -/
theorem c1_session_close_counts :
    (executeModel baseEnv).closeCount = 1 ∧
    (executeModel { baseEnv with
        continueOnFail := true
        dbFind := fun _ => .error "server down" }).closeCount = 1 ∧
    (executeModel { baseEnv with dbFind := fun _ => .error "server down" }).closeCount = 0 ∧
    (executeModel { baseEnv with operation := "foo" }).closeCount = 0 :=
  ⟨rfl, rfl, rfl, rfl⟩

theorem perItemStep_id_call (env : Env) (verb : PerItemVerb) (item : Doc) :
    ∀ c ∈ (perItemStep env verb "_id" item).1,
      ∃ s, coerceObjectId (jsGet item "_id") = .ok (.oid s) ∧
        c = verb.call [("_id", BVal.oid s)] (verb.wrap (docDelete item "_id")) env.upsert := by
  intro c hc
  cases hco : coerceObjectId (jsGet item "_id") with
  | error e =>
      have hbf : buildFilterBody "_id" item = .error e := by
        simp [buildFilterBody, hco]
      simp only [perItemStep, hbf] at hc
      simp at hc
  | ok v =>
      obtain ⟨s, rfl⟩ := coerceObjectId_oid hco
      have hbf : buildFilterBody "_id" item =
          .ok ([("_id", BVal.oid s)], docDelete item "_id") := by
        simp [buildFilterBody, hco]
      simp only [perItemStep, hbf] at hc
      cases hdb : env.dbVerb verb [("_id", BVal.oid s)]
          (verb.wrap (docDelete item "_id")) with
      | error e =>
          rw [hdb] at hc
          simp at hc
          exact ⟨s, rfl, hc⟩
      | ok u =>
          rw [hdb] at hc
          simp at hc
          exact ⟨s, rfl, hc⟩

/-- C3: in the per-item loops run with update key `_id`, every issued call
carries the single-key filter holding the item's identifier coerced to the
canonical type, and a body built from the document with `_id` deleted: the
update/replace body never contains that key. -/
theorem c3_id_in_filter_only (env : Env) (verb : PerItemVerb) :
    ∀ items : List Doc, ∀ c ∈ (perItemLoop env verb "_id" items).1,
      ∃ item s, coerceObjectId (jsGet item "_id") = .ok (.oid s) ∧
        c = verb.call [("_id", BVal.oid s)] (verb.wrap (docDelete item "_id")) env.upsert ∧
        hasKey (docDelete item "_id") "_id" = false := by
  intro items
  induction items with
  | nil => intro c hc; simp [perItemLoop] at hc
  | cons item rest ih =>
      intro c hc
      rcases hps : perItemStep env verb "_id" item with ⟨cs, item2, r⟩
      have hstep : ∀ c0 ∈ cs, ∃ s, coerceObjectId (jsGet item "_id") = .ok (.oid s) ∧
          c0 = verb.call [("_id", BVal.oid s)] (verb.wrap (docDelete item "_id")) env.upsert :=
        fun c0 hc0 => perItemStep_id_call env verb item c0 (by rw [hps]; exact hc0)
      rcases hrec : perItemLoop env verb "_id" rest with ⟨cs2, r2⟩
      have hmem : c ∈ cs ∨ c ∈ cs2 := by
        cases r with
        | ok u =>
            cases r2 with
            | error e2 =>
                simp [perItemLoop, hps, hrec] at hc
                exact hc
            | ok out =>
                simp [perItemLoop, hps, hrec] at hc
                exact hc
        | error e =>
            cases hcf : env.continueOnFail with
            | true =>
                cases r2 with
                | error e2 =>
                    simp [perItemLoop, hps, hrec, hcf] at hc
                    exact hc
                | ok out =>
                    simp [perItemLoop, hps, hrec, hcf] at hc
                    exact hc
            | false =>
                simp [perItemLoop, hps, hrec, hcf] at hc
                exact Or.inl hc
      cases hmem with
      | inl h =>
          obtain ⟨s, hco, hceq⟩ := hstep c h
          exact ⟨item, s, hco, hceq, hasKey_docDelete item "_id"⟩
      | inr h => exact ih c (by rw [hrec]; exact h)

/-- C3 witness: a concrete update item with `_id` and one payload field. -/
theorem c3_id_in_filter_only_witness :
    ∃ item s, coerceObjectId (jsGet item "_id") = .ok (.oid s) ∧
      PerItemVerb.call .updateOne [("_id", BVal.oid oidA)]
          (PerItemVerb.wrap .updateOne (docDelete itemWithId "_id")) baseEnv.upsert =
        PerItemVerb.call .updateOne [("_id", BVal.oid s)]
          (PerItemVerb.wrap .updateOne (docDelete item "_id")) baseEnv.upsert ∧
      hasKey (docDelete item "_id") "_id" = false :=
  c3_id_in_filter_only baseEnv .updateOne [itemWithId]
    (PerItemVerb.call .updateOne [("_id", BVal.oid oidA)]
      (PerItemVerb.wrap .updateOne (docDelete itemWithId "_id")) baseEnv.upsert)
    (List.Mem.head _)

theorem perItemLoop_isolate_cof (env : Env) (verb : PerItemVerb) (updateKey : String)
    (post : List Doc) (bad : Doc) (e : String)
    (hcf : env.continueOnFail = true)
    (hpost : ∀ item ∈ post, stepRes env verb updateKey item = .ok ())
    (hbad : stepRes env verb updateKey bad = .error e) :
    ∀ pre : List Doc, (∀ item ∈ pre, stepRes env verb updateKey item = .ok ()) →
      perItemLoop env verb updateKey (pre ++ bad :: post) =
        (loopCalls env verb updateKey (pre ++ bad :: post),
         .ok (pre.map (stepDoc env verb updateKey) ++
           annotateError (stepDoc env verb updateKey bad) e ::
             post.map (stepDoc env verb updateKey))) := by
  intro pre
  induction pre with
  | nil =>
      intro _
      rcases hps : perItemStep env verb updateKey bad with ⟨cs, bad2, r⟩
      have hr : r = .error e := by simpa [stepRes, hps] using hbad
      subst hr
      have hrest := perItemLoop_all_ok env verb updateKey post hpost
      simp [perItemLoop, hps, hcf, hrest, loopCalls, stepCalls, stepDoc]
  | cons p pre ih =>
      intro hpre
      have hp : stepRes env verb updateKey p = .ok () := hpre p (by simp)
      have ihr := ih (fun it hit => hpre it (by simp [hit]))
      rcases hps : perItemStep env verb updateKey p with ⟨cs, p2, r⟩
      have hr : r = .ok () := by simpa [stepRes, hps] using hp
      subst hr
      simp [perItemLoop, hps, ihr, loopCalls, stepCalls, stepDoc]

theorem perItemLoop_abort_nocof (env : Env) (verb : PerItemVerb) (updateKey : String)
    (post : List Doc) (bad : Doc) (e : String)
    (hcf : env.continueOnFail = false)
    (hbad : stepRes env verb updateKey bad = .error e) :
    ∀ pre : List Doc, (∀ item ∈ pre, stepRes env verb updateKey item = .ok ()) →
      perItemLoop env verb updateKey (pre ++ bad :: post) =
        (loopCalls env verb updateKey pre ++ stepCalls env verb updateKey bad, .error e) := by
  intro pre
  induction pre with
  | nil =>
      intro _
      rcases hps : perItemStep env verb updateKey bad with ⟨cs, bad2, r⟩
      have hr : r = .error e := by simpa [stepRes, hps] using hbad
      subst hr
      simp [perItemLoop, hps, hcf, loopCalls, stepCalls]
  | cons p pre ih =>
      intro hpre
      have hp : stepRes env verb updateKey p = .ok () := hpre p (by simp)
      have ihr := ih (fun it hit => hpre it (by simp [hit]))
      rcases hps : perItemStep env verb updateKey p with ⟨cs, p2, r⟩
      have hr : r = .ok () := by simpa [stepRes, hps] using hp
      subst hr
      simp [perItemLoop, hps, ihr, loopCalls, stepCalls]

/-- C8: per-item error isolation: if in a batch `pre ++ bad :: post` only
`bad` fails, then with continue-on-failure the loop still issues every
item's call, answers one output per input (length preserved) with the other
items processed normally and `bad` annotated with the error; without
continue-on-failure the loop stops at `bad` with the error, returning no
partial results (the calls before the abort are those of `pre` and `bad`). -/
theorem c8_per_item_error_isolation (env : Env) (verb : PerItemVerb) (updateKey : String)
    (pre post : List Doc) (bad : Doc) (e : String)
    (hok : ∀ item ∈ pre ++ post, stepRes env verb updateKey item = .ok ())
    (hbad : stepRes env verb updateKey bad = .error e) :
    (env.continueOnFail = true →
      perItemLoop env verb updateKey (pre ++ bad :: post) =
        (loopCalls env verb updateKey (pre ++ bad :: post),
         .ok (pre.map (stepDoc env verb updateKey) ++
           annotateError (stepDoc env verb updateKey bad) e ::
             post.map (stepDoc env verb updateKey))) ∧
      (pre.map (stepDoc env verb updateKey) ++
        annotateError (stepDoc env verb updateKey bad) e ::
          post.map (stepDoc env verb updateKey)).length = (pre ++ bad :: post).length) ∧
    (env.continueOnFail = false →
      perItemLoop env verb updateKey (pre ++ bad :: post) =
        (loopCalls env verb updateKey pre ++ stepCalls env verb updateKey bad, .error e)) := by
  have hpre : ∀ item ∈ pre, stepRes env verb updateKey item = .ok () :=
    fun it hit => hok it (List.mem_append.mpr (Or.inl hit))
  have hpost : ∀ item ∈ post, stepRes env verb updateKey item = .ok () :=
    fun it hit => hok it (List.mem_append.mpr (Or.inr hit))
  refine ⟨fun hcf => ⟨perItemLoop_isolate_cof env verb updateKey post bad e hcf hpost hbad
    pre hpre, ?_⟩,
    fun hcf => perItemLoop_abort_nocof env verb updateKey post bad e hcf hbad pre hpre⟩
  simp

/-- C8 witness: three items for update, the middle one rejected by the
driver. -/
theorem c8_per_item_error_isolation_witness :
    (envC8.continueOnFail = true →
      perItemLoop envC8 .updateOne "name"
          ([[("name", BVal.str "x")]] ++
            [("name", BVal.str "y")] :: [[("name", BVal.str "z")]]) =
        (loopCalls envC8 .updateOne "name"
            ([[("name", BVal.str "x")]] ++
              [("name", BVal.str "y")] :: [[("name", BVal.str "z")]]),
         .ok ([[("name", BVal.str "x")]].map (stepDoc envC8 .updateOne "name") ++
           annotateError (stepDoc envC8 .updateOne "name" [("name", BVal.str "y")])
               "duplicate key" ::
             [[("name", BVal.str "z")]].map (stepDoc envC8 .updateOne "name"))) ∧
      ([[("name", BVal.str "x")]].map (stepDoc envC8 .updateOne "name") ++
        annotateError (stepDoc envC8 .updateOne "name" [("name", BVal.str "y")])
            "duplicate key" ::
          [[("name", BVal.str "z")]].map (stepDoc envC8 .updateOne "name")).length =
        ([[("name", BVal.str "x")]] ++
          [("name", BVal.str "y")] :: [[("name", BVal.str "z")]]).length) ∧
    (envC8.continueOnFail = false →
      perItemLoop envC8 .updateOne "name"
          ([[("name", BVal.str "x")]] ++
            [("name", BVal.str "y")] :: [[("name", BVal.str "z")]]) =
        (loopCalls envC8 .updateOne "name" [[("name", BVal.str "x")]] ++
          stepCalls envC8 .updateOne "name" [("name", BVal.str "y")],
         .error "duplicate key")) :=
  c8_per_item_error_isolation envC8 .updateOne "name"
    [[("name", BVal.str "x")]] [[("name", BVal.str "z")]] [("name", BVal.str "y")]
    "duplicate key"
    (by
      intro it hit
      simp at hit
      rcases hit with h | h <;> subst h <;> rfl)
    (by rfl)
